import Mathlib

/-!
Shallow embedding of the blog backend's controller layer
(`src/server2/src/controllers/blogsController.ts`) and proofs about it.

Modelling conventions:
- A MongoDB document store is a `List Blog`; `BlogModel.findOne {slug}` is
  `List.find?` on the slug, `save()` of a document fetched by slug is
  "replace the first slug match", `deleteOne {_id: blog._id}` for a blog
  found by slug is "erase the first slug match" (Mongo `_id`s are unique,
  so these coincide with the by-`_id` semantics).
- Timestamps (`Date`) are `Nat` milliseconds; a nullable timestamp is
  `Option Nat`.
- JavaScript string truthiness: destructured request-body fields are
  `undefined` when absent, and the controllers only ever test truthiness
  (`if (title) ...`) before using a value, so for fields whose falsy values
  are never stored, `undefined` and `""` are observationally identical and
  both are modelled as `""`.  `imageUrl` at creation is stored verbatim
  (possibly absent), so it stays an `Option String`.
- `ObjectId` identities are modelled by their canonical string form
  (`.toString()`), which is exactly how the source compares them.
- Mongoose `.sort({publishedAt: -1})` sorts descending by `publishedAt`
  with BSON `null` ordered below every date; tie order is unspecified in
  the source, the model fixes it with a stable insertion sort.
- The `.select("title author publishedAt slug")` projection only narrows
  the response shape; the model returns whole documents since no claim
  depends on the projection.
- The `catch`/500 paths model store infrastructure failure and are not
  reachable in the pure model.
-/

/-- A tag subdocument `{name, slug}`. -/
structure Tag where
  name : String
  slug : String
deriving DecidableEq

/-- One article document of `BlogModel`. -/
structure Blog where
  title : String
  content : String
  imageUrl : Option String
  slug : String
  author : String
  tags : List Tag
  isPublished : Bool
  isDraft : Bool
  publishedAt : Option Nat
  createdAt : Nat
  updatedAt : Nat
deriving DecidableEq

/-- Truthiness of an optional string request field (`undefined` and `""`
are falsy). -/
def truthy : Option String → Bool
  | none => false
  | some s => decide (s ≠ "")

/-- Join a list of words with the `"-"` separator. -/
def joinHyphen : List String → String
  | [] => ""
  | [w] => w
  | w :: ws => w ++ "-" ++ joinHyphen ws

/-- Accumulate maximal runs of alphanumeric characters (lower-cased),
dropping everything else. -/
def slugWordsAux : List Char → List Char → List (List Char)
  | [], acc => if acc.isEmpty then [] else [acc.reverse]
  | c :: cs, acc =>
    if c.isAlphanum then slugWordsAux cs (c.toLower :: acc)
    else if acc.isEmpty then slugWordsAux cs []
    else acc.reverse :: slugWordsAux cs []

/-- Modelled from the spec: `src/server2/src/helpers/generateSlug.ts` is
imported by the controller but missing from the reviewed source set.
Spec 4.1: lower-case, replace runs of non-alphanumeric characters with a
single separator, strip leading/trailing separators, and produce the empty
string on empty/whitespace-only input. -/
def generateSlug (text : String) : String :=
  joinHyphen ((slugWordsAux text.toList []).map (fun w => String.mk w))

/-- The k-th slug candidate probed by `postBlog`'s uniqueness loop:
the base slug itself, then `base-1`, `base-2`, ... -/
def slugCandidate (base : String) : Nat → String
  | 0 => base
  | k + 1 => base ++ "-" ++ Nat.repr (k + 1)

/-- The `while (await BlogModel.findOne({slug}))` probe loop of `postBlog`,
with explicit fuel (the source loop runs until a free slug is found;
`resolveLoop_spec` below shows the fuel used by `resolveSlug` suffices).
The index `k` is `slugCounter - 1` of the source. -/
def resolveLoop (base : String) (taken : List String) : Nat → Nat → String
  | 0, k => slugCandidate base k
  | fuel + 1, k =>
    if slugCandidate base k ∈ taken then resolveLoop base taken fuel (k + 1)
    else slugCandidate base k

/-- Slug-uniqueness resolution of `postBlog` (lines 31-36): probe
`base, base-1, base-2, ...` against the stored slugs and return the first
free candidate. -/
def resolveSlug (base : String) (taken : List String) : String :=
  resolveLoop base taken (taken.length + 1) 0

/-- Request body of the create operation (`postBlog`). -/
structure PostBody where
  title : String
  content : String
  imageUrl : Option String
  tags : List String
  isPublished : Option Bool
deriving DecidableEq

/-- `postBlog` (lines 7-67): validate title/content, require an identity,
resolve a unique slug, and append the new document.  Returns
(status, store after the call, created blog if any); `now` is the clock
(`new Date()`), and mongoose schema timestamps stamp `createdAt`/`updatedAt`
at creation. -/
def postBlog (store : List Blog) (user : Option String) (body : PostBody)
    (now : Nat) : Nat × List Blog × Option Blog :=
  if body.title = "" ∨ body.content = "" then (400, store, none)
  else if truthy user = false then (401, store, none)
  else
    let uid := user.getD ""
    let baseSlug := generateSlug body.title
    let slug := resolveSlug baseSlug (store.map Blog.slug)
    let isPub := body.isPublished.getD true
    let newBlog : Blog :=
      { title := body.title
        content := body.content
        imageUrl := body.imageUrl
        slug := slug
        author := uid
        tags := body.tags.map (fun n => ⟨n, generateSlug n⟩)
        isPublished := isPub
        isDraft := !isPub
        publishedAt := if isPub then some now else none
        createdAt := now
        updatedAt := now }
    (201, store ++ [newBlog], some newBlog)

/-- Sort key realising BSON order for `publishedAt`: `null` below every
date. -/
def pubKey (b : Blog) : Nat :=
  match b.publishedAt with
  | none => 0
  | some t => t + 1

/-- Descending-`publishedAt` order used by `.sort({publishedAt: -1})`. -/
def pubGE (a b : Blog) : Prop := pubKey b ≤ pubKey a

instance : DecidableRel pubGE := fun _ _ => Nat.decLe _ _

instance : IsTotal Blog pubGE := ⟨fun a b => Nat.le_total (pubKey b) (pubKey a)⟩

instance : IsTrans Blog pubGE := ⟨fun _ _ _ h h' => Nat.le_trans h' h⟩

/-- `.sort({publishedAt: -1})`: stable sort, newest first, `null` last. -/
def sortByPubDesc (l : List Blog) : List Blog := l.insertionSort pubGE

/-- The cursor predicate built by `getAllBlogs`: no cursor matches
everything; a cursor matches documents whose `publishedAt` is a date
strictly before it (BSON `$lt` with a date operand never matches `null`). -/
def matchQuery (cursor : Option Nat) (b : Blog) : Bool :=
  match cursor with
  | none => true
  | some c =>
    match b.publishedAt with
    | some t => decide (t < c)
    | none => false

/-- `parseInt(req.query.limit) || 10`: absent or non-numeric input parses
to `NaN` (modelled `none`) and `0` is falsy, so both fall back to 10. -/
def effLimit : Option Nat → Nat
  | none => 10
  | some 0 => 10
  | some (n + 1) => n + 1

/-- Response of the public list endpoint. -/
structure FeedPage where
  status : Nat
  blogs : List Blog
  nextCursor : Option Nat
deriving DecidableEq

/-- `getAllBlogs` (lines 69-102): fetch `limit + 1` documents matching the
cursor predicate, newest first; if more than `limit` came back, drop the
extra one and expose the last returned item's `publishedAt` as the next
cursor. -/
def getAllBlogs (store : List Blog) (limitParam : Option Nat)
    (cursor : Option Nat) : FeedPage :=
  let limit := effLimit limitParam
  let fetched := (sortByPubDesc (store.filter (matchQuery cursor))).take (limit + 1)
  let hasNextPage := decide (limit < fetched.length)
  let page := if hasNextPage then fetched.dropLast else fetched
  { status := 200
    blogs := page
    nextCursor := if hasNextPage then page.getLast?.bind Blog.publishedAt else none }

/-- `allBlogsOfUser` (lines 144-178): all documents of the acting identity,
newest first; `401` without an identity, `404` on zero results. -/
def allBlogsOfUser (store : List Blog) (user : Option String) :
    Nat × List Blog :=
  if truthy user = false then (401, [])
  else
    let uid := user.getD ""
    let blogs := sortByPubDesc (store.filter (fun b => decide (b.author = uid)))
    if blogs.length = 0 then (404, []) else (200, blogs)

/-- Request body of the update operation; all falsy values (absent or
empty) are "no change", see the truthiness convention above. -/
structure UpdateBody where
  title : String
  content : String
  imageUrl : String
  tags : List String
  isPublished : Option Bool
deriving DecidableEq

/-- The field mutations of `updateBlogController` (lines 206-220): truthy
fields overwrite, `isPublished`/`isDraft` are always assigned (the body
value defaulting to `true` when absent), `publishedAt` is left alone
(line 218 is commented out in the source), `updatedAt` is refreshed. -/
def applyPatch (b : Blog) (body : UpdateBody) (now : Nat) : Blog :=
  let b1 := if body.title ≠ "" then { b with title := body.title } else b
  let b2 := if body.content ≠ "" then { b1 with content := body.content } else b1
  let b3 := if body.imageUrl ≠ "" then { b2 with imageUrl := some body.imageUrl } else b2
  let b4 :=
    if body.tags.length > 0 then
      { b3 with tags := body.tags.map (fun n => ⟨n, generateSlug n⟩) }
    else b3
  let isPub := body.isPublished.getD true
  { b4 with isPublished := isPub, isDraft := !isPub, updatedAt := now }

/-- Replace the first element satisfying `p` (the `save()` write-back of
the document `findOne` returned). -/
def replaceFirst (p : Blog → Bool) (b' : Blog) : List Blog → List Blog
  | [] => []
  | x :: xs => if p x then b' :: xs else x :: replaceFirst p b' xs

/-- `updateBlogController` (lines 180-232): 400 on falsy slug or identity,
404 when no document has the slug, 403 when the acting identity is not the
author, otherwise apply the patch and save. -/
def updateBlogController (store : List Blog) (user : Option String)
    (slug : String) (body : UpdateBody) (now : Nat) : Nat × List Blog :=
  if slug = "" ∨ truthy user = false then (400, store)
  else
    let uid := user.getD ""
    match store.find? (fun b => decide (b.slug = slug)) with
    | none => (404, store)
    | some b =>
      if b.author ≠ uid then (403, store)
      else
        (200, replaceFirst (fun x => decide (x.slug = slug)) (applyPatch b body now) store)

/-- `deleteBlogController` (lines 234-261): 400 on falsy slug or identity,
404 when no document has the slug, 403 when the acting identity is not the
author, otherwise hard-delete the found document. -/
def deleteBlogController (store : List Blog) (user : Option String)
    (slug : String) : Nat × List Blog :=
  if slug = "" ∨ truthy user = false then (400, store)
  else
    let uid := user.getD ""
    match store.find? (fun b => decide (b.slug = slug)) with
    | none => (404, store)
    | some b =>
      if b.author ≠ uid then (403, store)
      else (200, store.eraseP (fun x => decide (x.slug = slug)))

/-- Store states reachable from the empty store through the mutating
controller operations. -/
inductive Reachable : List Blog → Prop where
  | empty : Reachable []
  | create (s : List Blog) (u : Option String) (body : PostBody) (now : Nat) :
      Reachable s → Reachable (postBlog s u body now).2.1
  | update (s : List Blog) (u : Option String) (slug : String)
      (body : UpdateBody) (now : Nat) :
      Reachable s → Reachable (updateBlogController s u slug body now).2
  | del (s : List Blog) (u : Option String) (slug : String) :
      Reachable s → Reachable (deleteBlogController s u slug).2

/-! ### Helper lemmas -/

theorem mem_replaceFirst {p : Blog → Bool} {b' x : Blog} :
    ∀ {l : List Blog}, x ∈ replaceFirst p b' l → x = b' ∨ x ∈ l := by
  intro l
  induction l with
  | nil => simp [replaceFirst]
  | cons y ys ih =>
    simp only [replaceFirst]
    split
    · intro h
      rcases List.mem_cons.mp h with h | h
      · exact Or.inl h
      · exact Or.inr (List.mem_cons_of_mem _ h)
    · intro h
      rcases List.mem_cons.mp h with h | h
      · exact Or.inr (h ▸ List.mem_cons_self _ _)
      · rcases ih h with h | h
        · exact Or.inl h
        · exact Or.inr (List.mem_cons_of_mem _ h)

theorem applyPatch_isDraft (b : Blog) (body : UpdateBody) (now : Nat) :
    (applyPatch b body now).isDraft = !(applyPatch b body now).isPublished := by
  simp [applyPatch]

/-! ### C8: isDraft is the complement of isPublished in every reachable state -/

/-- Claim C8: in every reachable store state every article satisfies
`isDraft = !isPublished`; the create operation establishes it
(`isDraft: !isPublished` at line 51) and the update operation re-establishes
it (lines 216-217), so the relation is preserved by all operations. -/
theorem c8_draft_complement (s : List Blog) (h : Reachable s) :
    ∀ b ∈ s, b.isDraft = !b.isPublished := by
  induction h with
  | empty => intro b hb; cases hb
  | create s u body now _ ih =>
    intro b hb
    unfold postBlog at hb
    split at hb
    · exact ih b hb
    · split at hb
      · exact ih b hb
      · simp only at hb
        rcases List.mem_append.mp hb with h' | h'
        · exact ih b h'
        · rcases List.mem_singleton.mp h' with rfl
          rfl
  | update s u slug body now _ ih =>
    intro b hb
    unfold updateBlogController at hb
    split at hb
    · exact ih b hb
    · simp only at hb
      split at hb
      · exact ih b hb
      · split at hb
        · exact ih b hb
        · rcases mem_replaceFirst hb with rfl | h'
          · exact applyPatch_isDraft _ _ _
          · exact ih b h'
  | del s u slug _ ih =>
    intro b hb
    unfold deleteBlogController at hb
    split at hb
    · exact ih b hb
    · simp only at hb
      split at hb
      · exact ih b hb
      · split at hb
        · exact ih b hb
        · exact ih b (List.mem_of_mem_eraseP hb)

/-- Witness for C8 at a concretely reached store and article. -/
theorem c8_draft_complement_witness :
    (⟨"t", "c", none, "t", "u", [], true, false, some 0, 0, 0⟩ : Blog).isDraft =
      !(⟨"t", "c", none, "t", "u", [], true, false, some 0, 0, 0⟩ : Blog).isPublished :=
  c8_draft_complement _
    (Reachable.create [] (some "u") ⟨"t", "c", none, [], none⟩ 0 Reachable.empty)
    _ (by decide)

/-! ### C7: ownership authorization on update and delete -/

/-- Claim C7: with an article found under the slug, update and delete
succeed (200) iff the acting identity is present (truthy) and equals the
article's author compared as strings (`existingBlog.author.toString() !==
authorId`); a present different identity gets 403 with no write, and an
absent identity is denied (400, no write). -/
theorem c7_ownership (store : List Blog) (user : Option String) (slug : String)
    (body : UpdateBody) (now : Nat) (b : Blog)
    (hfind : store.find? (fun x => decide (x.slug = slug)) = some b)
    (hslug : slug ≠ "") :
    ((updateBlogController store user slug body now).1 = 200 ↔
      user = some b.author ∧ b.author ≠ "") ∧
    ((deleteBlogController store user slug).1 = 200 ↔
      user = some b.author ∧ b.author ≠ "") ∧
    (∀ uid, user = some uid → uid ≠ "" → uid ≠ b.author →
      updateBlogController store user slug body now = (403, store) ∧
      deleteBlogController store user slug = (403, store)) ∧
    (user = none →
      updateBlogController store user slug body now = (400, store) ∧
      deleteBlogController store user slug = (400, store)) := by
  match user with
  | none =>
    simp [updateBlogController, deleteBlogController, truthy, hslug]
  | some uid =>
    by_cases huid : uid = ""
    · subst huid
      constructor
      · simp only [updateBlogController, truthy, hslug]
        simp
        intro h
        exact h.symm
      constructor
      · simp only [deleteBlogController, truthy, hslug]
        simp
        intro h
        exact h.symm
      constructor
      · intro uid' h h' _
        exact absurd (Option.some.inj h).symm h'
      · intro h; cases h
    · by_cases hown : b.author = uid
      · subst hown
        refine ⟨?_, ?_, ?_, ?_⟩
        · simp [updateBlogController, truthy, hslug, huid, hfind]
        · simp [deleteBlogController, truthy, hslug, huid, hfind]
        · intro uid' h _ h'
          exact absurd (Option.some.inj h).symm h'
        · intro h; cases h
      · refine ⟨?_, ?_, ?_, ?_⟩
        · simp [updateBlogController, truthy, hslug, huid, hfind, hown]
          intro h
          exact absurd h.symm hown
        · simp [deleteBlogController, truthy, hslug, huid, hfind, hown]
          intro h
          exact absurd h.symm hown
        · intro uid' h h' h''
          rcases Option.some.inj h
          constructor
          · simp [updateBlogController, truthy, hslug, huid, hfind, hown]
          · simp [deleteBlogController, truthy, hslug, huid, hfind, hown]
        · intro h; cases h

/-- Witness for C7 on a one-article store. -/
theorem c7_ownership_witness :
    let b : Blog := ⟨"t", "c", none, "t", "u", [], true, false, some 1, 1, 1⟩
    ((updateBlogController [b] (some "v") "t" ⟨"", "", "", [], none⟩ 2).1 = 200 ↔
      (some "v" : Option String) = some b.author ∧ b.author ≠ "") ∧
    ((deleteBlogController [b] (some "v") "t").1 = 200 ↔
      (some "v" : Option String) = some b.author ∧ b.author ≠ "") ∧
    (∀ uid, (some "v" : Option String) = some uid → uid ≠ "" → uid ≠ b.author →
      updateBlogController [b] (some "v") "t" ⟨"", "", "", [], none⟩ 2 = (403, [b]) ∧
      deleteBlogController [b] (some "v") "t" = (403, [b])) ∧
    ((some "v" : Option String) = none →
      updateBlogController [b] (some "v") "t" ⟨"", "", "", [], none⟩ 2 = (400, [b]) ∧
      deleteBlogController [b] (some "v") "t" = (400, [b])) :=
  c7_ownership [⟨"t", "c", none, "t", "u", [], true, false, some 1, 1, 1⟩]
    (some "v") "t" ⟨"", "", "", [], none⟩ 2 _ (by decide) (by decide)

/-! ### C9: author listing error taxonomy versus the public list -/

/-- Claim C9: listing by author answers 401 without an identity, 404 when
the authenticated identity has zero articles, 200 with the items otherwise,
whereas the public list endpoint answers 200 with an empty array whenever
nothing matches its query. -/
theorem c9_author_listing (store : List Blog) (uid : String) (huid : uid ≠ "") :
    (allBlogsOfUser store none).1 = 401 ∧
    (store.filter (fun b => decide (b.author = uid)) = [] →
      allBlogsOfUser store (some uid) = (404, [])) ∧
    (store.filter (fun b => decide (b.author = uid)) ≠ [] →
      (allBlogsOfUser store (some uid)).1 = 200 ∧
      (allBlogsOfUser store (some uid)).2 =
        sortByPubDesc (store.filter (fun b => decide (b.author = uid)))) ∧
    (∀ (store' : List Blog) (lim cur : Option Nat),
      store'.filter (matchQuery cur) = [] →
      getAllBlogs store' lim cur = ⟨200, [], none⟩) := by
  refine ⟨rfl, ?_, ?_, ?_⟩
  · intro hempty
    simp [allBlogsOfUser, truthy, huid, hempty, sortByPubDesc]
  · intro hne
    have hlen : (sortByPubDesc (store.filter (fun b => decide (b.author = uid)))).length ≠ 0 := by
      rw [sortByPubDesc, List.length_insertionSort]
      exact fun h => hne (List.length_eq_zero.mp h)
    simp [allBlogsOfUser, truthy, huid, hlen]
  · intro store' lim cur hempty
    simp [getAllBlogs, hempty, sortByPubDesc, List.insertionSort]

/-- Witness for C9 on a one-article store and a foreign identity. -/
theorem c9_author_listing_witness :
    let b : Blog := ⟨"t", "c", none, "t", "u", [], true, false, some 1, 1, 1⟩
    ((allBlogsOfUser [b] none).1 = 401 ∧
    ([b].filter (fun x => decide (x.author = "v")) = [] →
      allBlogsOfUser [b] (some "v") = (404, [])) ∧
    ([b].filter (fun x => decide (x.author = "v")) ≠ [] →
      (allBlogsOfUser [b] (some "v")).1 = 200 ∧
      (allBlogsOfUser [b] (some "v")).2 =
        sortByPubDesc ([b].filter (fun x => decide (x.author = "v")))) ∧
    (∀ (store' : List Blog) (lim cur : Option Nat),
      store'.filter (matchQuery cur) = [] →
      getAllBlogs store' lim cur = ⟨200, [], none⟩)) :=
  c9_author_listing [⟨"t", "c", none, "t", "u", [], true, false, some 1, 1, 1⟩]
    "v" (by decide)

/-! ### C10: existence is checked before ownership -/

/-- Claim C10: for update and delete the existence check precedes the
ownership check — an authenticated request naming a slug with no matching
article gets 404 whatever the identity is, and 403 arises only when some
article matches the slug. -/
theorem c10_notfound_before_forbidden (store : List Blog) (slug : String)
    (uid : String) (body : UpdateBody) (now : Nat)
    (hslug : slug ≠ "") (huid : uid ≠ "") :
    (store.find? (fun x => decide (x.slug = slug)) = none →
      updateBlogController store (some uid) slug body now = (404, store) ∧
      deleteBlogController store (some uid) slug = (404, store)) ∧
    ((updateBlogController store (some uid) slug body now).1 = 403 →
      ∃ b, store.find? (fun x => decide (x.slug = slug)) = some b) ∧
    ((deleteBlogController store (some uid) slug).1 = 403 →
      ∃ b, store.find? (fun x => decide (x.slug = slug)) = some b) := by
  refine ⟨?_, ?_, ?_⟩
  · intro hnone
    constructor
    · simp [updateBlogController, truthy, hslug, huid, hnone]
    · simp [deleteBlogController, truthy, hslug, huid, hnone]
  · intro h403
    match hfind : store.find? (fun x => decide (x.slug = slug)) with
    | some b => exact ⟨b, hfind⟩
    | none =>
      rw [updateBlogController] at h403
      simp [truthy, hslug, huid, hfind] at h403
  · intro h403
    match hfind : store.find? (fun x => decide (x.slug = slug)) with
    | some b => exact ⟨b, hfind⟩
    | none =>
      rw [deleteBlogController] at h403
      simp [truthy, hslug, huid, hfind] at h403

/-- Witness for C10 on an empty store. -/
theorem c10_notfound_before_forbidden_witness :
    (([] : List Blog).find? (fun x => decide (x.slug = "s")) = none →
      updateBlogController [] (some "u") "s" ⟨"", "", "", [], none⟩ 1 = (404, []) ∧
      deleteBlogController [] (some "u") "s" = (404, [])) ∧
    ((updateBlogController [] (some "u") "s" ⟨"", "", "", [], none⟩ 1).1 = 403 →
      ∃ b, ([] : List Blog).find? (fun x => decide (x.slug = "s")) = some b) ∧
    ((deleteBlogController [] (some "u") "s").1 = 403 →
      ∃ b, ([] : List Blog).find? (fun x => decide (x.slug = "s")) = some b) :=
  c10_notfound_before_forbidden [] "s" "u" ⟨"", "", "", [], none⟩ 1
    (by decide) (by decide)

/-! ### applyPatch field lemmas -/

theorem applyPatch_title (b : Blog) (body : UpdateBody) (now : Nat) :
    (applyPatch b body now).title =
      if body.title ≠ "" then body.title else b.title := by
  simp only [applyPatch]
  split_ifs <;> rfl

theorem applyPatch_content (b : Blog) (body : UpdateBody) (now : Nat) :
    (applyPatch b body now).content =
      if body.content ≠ "" then body.content else b.content := by
  simp only [applyPatch]
  split_ifs <;> rfl

theorem applyPatch_imageUrl (b : Blog) (body : UpdateBody) (now : Nat) :
    (applyPatch b body now).imageUrl =
      if body.imageUrl ≠ "" then some body.imageUrl else b.imageUrl := by
  simp only [applyPatch]
  split_ifs <;> rfl

theorem applyPatch_tags (b : Blog) (body : UpdateBody) (now : Nat) :
    (applyPatch b body now).tags =
      if body.tags.length > 0 then body.tags.map (fun n => ⟨n, generateSlug n⟩)
      else b.tags := by
  simp only [applyPatch]
  split_ifs <;> rfl

theorem applyPatch_slug (b : Blog) (body : UpdateBody) (now : Nat) :
    (applyPatch b body now).slug = b.slug := by
  simp only [applyPatch]
  split_ifs <;> rfl

theorem applyPatch_author (b : Blog) (body : UpdateBody) (now : Nat) :
    (applyPatch b body now).author = b.author := by
  simp only [applyPatch]
  split_ifs <;> rfl

theorem applyPatch_publishedAt (b : Blog) (body : UpdateBody) (now : Nat) :
    (applyPatch b body now).publishedAt = b.publishedAt := by
  simp only [applyPatch]
  split_ifs <;> rfl

theorem applyPatch_createdAt (b : Blog) (body : UpdateBody) (now : Nat) :
    (applyPatch b body now).createdAt = b.createdAt := by
  simp only [applyPatch]
  split_ifs <;> rfl

theorem applyPatch_updatedAt (b : Blog) (body : UpdateBody) (now : Nat) :
    (applyPatch b body now).updatedAt = now := by
  simp only [applyPatch]

theorem applyPatch_isPublished (b : Blog) (body : UpdateBody) (now : Nat) :
    (applyPatch b body now).isPublished = body.isPublished.getD true := by
  simp only [applyPatch]

/-! ### find? / replaceFirst positional lemmas -/

theorem find?_first {p : Blog → Bool} {pre post : List Blog} {b : Blog}
    (hpre : ∀ x ∈ pre, p x = false) (hb : p b = true) :
    (pre ++ b :: post).find? p = some b := by
  induction pre with
  | nil => rw [List.nil_append, List.find?_cons_of_pos _ hb]
  | cons x xs ih =>
    rw [List.cons_append, List.find?_cons_of_neg _
      (by simp [hpre x (List.mem_cons_self _ _)])]
    exact ih (fun y hy => hpre y (List.mem_cons_of_mem _ hy))

theorem replaceFirst_first {p : Blog → Bool} {pre post : List Blog}
    {b b' : Blog} (hpre : ∀ x ∈ pre, p x = false) (hb : p b = true) :
    replaceFirst p b' (pre ++ b :: post) = pre ++ b' :: post := by
  induction pre with
  | nil => simp [replaceFirst, hb]
  | cons x xs ih =>
    rw [List.cons_append, replaceFirst]
    rw [hpre x (List.mem_cons_self _ _)]
    simp only [Bool.false_eq_true, if_false, List.cons_append]
    rw [ih (fun y hy => hpre y (List.mem_cons_of_mem _ hy))]

theorem map_replaceFirst_of_find? {α : Type} (f : Blog → α) (p : Blog → Bool)
    (b b' : Blog) (store : List Blog)
    (hfind : store.find? p = some b) (hf : f b' = f b) :
    (replaceFirst p b' store).map f = store.map f := by
  induction store with
  | nil => cases hfind
  | cons x xs ih =>
    by_cases hx : p x
    · rw [List.find?_cons_of_pos _ hx] at hfind
      rcases Option.some.inj hfind
      simp [replaceFirst, hx, hf]
    · rw [List.find?_cons_of_neg _ hx] at hfind
      simp [replaceFirst, hx, ih hfind]

/-! ### C1: publishedAt lifecycle -/

/-- Claim C1 (amended): `publishedAt` is assigned exactly once, at creation
(`some now` iff the article is created published, `null` otherwise), and no
update ever sets, clears or advances it — line 218 that would stamp it on a
draft-to-published transition is commented out.  Consequently an article
created as a draft and later published by an update keeps
`publishedAt = null` even though `isPublished = true` (see
`c1_counterexample`). -/
theorem c1_publishedAt_only_at_creation :
    (∀ (store : List Blog) (user : Option String) (slug : String)
        (body : UpdateBody) (now : Nat),
      ((updateBlogController store user slug body now).2).map Blog.publishedAt =
        store.map Blog.publishedAt) ∧
    (∀ (store : List Blog) (user : Option String) (body : PostBody)
        (now : Nat) (b : Blog),
      (postBlog store user body now).2.2 = some b →
      b.publishedAt = (if body.isPublished.getD true then some now else none) ∧
      (postBlog store user body now).2.1 = store ++ [b]) := by
  constructor
  · intro store user slug body now
    rw [updateBlogController]
    split
    · rfl
    · simp only
      cases hfind : store.find? (fun x => decide (x.slug = slug)) with
      | none => simp [hfind]
      | some b =>
        simp only [hfind]
        split
        · rfl
        · exact map_replaceFirst_of_find? _ _ _ _ _ hfind
            (applyPatch_publishedAt _ _ _)
  · intro store user body now b h
    by_cases h1 : body.title = "" ∨ body.content = ""
    · rw [postBlog, if_pos h1] at h
      cases h
    · by_cases h2 : truthy user = false
      · rw [postBlog, if_neg h1, if_pos h2] at h
        cases h
      · have key : postBlog store user body now =
            (201, store ++ [⟨body.title, body.content, body.imageUrl,
              resolveSlug (generateSlug body.title) (store.map Blog.slug),
              user.getD "", body.tags.map (fun n => ⟨n, generateSlug n⟩),
              body.isPublished.getD true, !(body.isPublished.getD true),
              if body.isPublished.getD true then some now else none,
              now, now⟩],
            some ⟨body.title, body.content, body.imageUrl,
              resolveSlug (generateSlug body.title) (store.map Blog.slug),
              user.getD "", body.tags.map (fun n => ⟨n, generateSlug n⟩),
              body.isPublished.getD true, !(body.isPublished.getD true),
              if body.isPublished.getD true then some now else none,
              now, now⟩) := by
          rw [postBlog, if_neg h1, if_neg h2]
        rw [key] at h
        rcases Option.some.inj h
        rw [key]
        exact ⟨rfl, rfl⟩

/-- Witness for C1 (amended) at a concrete creation. -/
theorem c1_publishedAt_only_at_creation_witness :
    ((postBlog [] (some "u") ⟨"t", "c", none, [], some false⟩ 5).2.2 =
        some ⟨"t", "c", none, "t", "u", [], false, true, none, 5, 5⟩) ∧
    ((⟨"t", "c", none, "t", "u", [], false, true, none, 5, 5⟩ : Blog).publishedAt =
      (if (some false : Option Bool).getD true then some 5 else none) ∧
      (postBlog [] (some "u") ⟨"t", "c", none, [], some false⟩ 5).2.1 =
        [] ++ [⟨"t", "c", none, "t", "u", [], false, true, none, 5, 5⟩]) :=
  ⟨by decide,
    c1_publishedAt_only_at_creation.2 [] (some "u")
      ⟨"t", "c", none, [], some false⟩ 5 _ (by decide)⟩

/-- Counterexample to C1 as stated: create a draft, then update it with a
patch that does not mention `isPublished` (so the body default `true`
publishes it); the sole stored article ends with `isPublished = true` and
`publishedAt = null`, so "every article with `isPublished = true` has a
non-null `publishedAt`" fails, and the draft-to-published transition did
not assign `publishedAt`. -/
theorem c1_counterexample :
    ((updateBlogController
        (postBlog [] (some "u") ⟨"t", "c", none, [], some false⟩ 5).2.1
        (some "u") "t" ⟨"", "", "img", [], none⟩ 6).2).map
      (fun b => (b.isPublished, b.publishedAt)) = [(true, none)] := by
  decide

/-! ### C2: partial update semantics -/

/-- Claim C2 (amended): an authorized update applies exactly the truthy
fields of the patch — falsy (absent or empty) `title`, `content`,
`imageUrl` and empty `tags` leave the stored values untouched — keeps
`slug`, `author`, `publishedAt` and `createdAt`, and always refreshes
`updatedAt`; but `isPublished` is NOT left unchanged when absent from the
patch: it is always overwritten with the patch value defaulting to `true`
(lines 203, 216-217), and `isDraft` with its negation.  In particular an
update carrying only `imageUrl` leaves `title`, `content`, `tags`, `slug`
unchanged, advances `updatedAt`, and forces `isPublished = true`. -/
theorem c2_update_partial (pre post : List Blog) (b : Blog)
    (user : Option String) (slug : String) (body : UpdateBody) (now : Nat)
    (hpre : ∀ x ∈ pre, x.slug ≠ slug) (hb : b.slug = slug)
    (huser : user = some b.author) (hauth : b.author ≠ "") (hslug : slug ≠ "") :
    updateBlogController (pre ++ b :: post) user slug body now =
      (200, pre ++ applyPatch b body now :: post) ∧
    (applyPatch b body now).title =
      (if body.title ≠ "" then body.title else b.title) ∧
    (applyPatch b body now).content =
      (if body.content ≠ "" then body.content else b.content) ∧
    (applyPatch b body now).imageUrl =
      (if body.imageUrl ≠ "" then some body.imageUrl else b.imageUrl) ∧
    (applyPatch b body now).tags =
      (if body.tags.length > 0 then body.tags.map (fun n => ⟨n, generateSlug n⟩)
       else b.tags) ∧
    (applyPatch b body now).slug = b.slug ∧
    (applyPatch b body now).author = b.author ∧
    (applyPatch b body now).publishedAt = b.publishedAt ∧
    (applyPatch b body now).createdAt = b.createdAt ∧
    (applyPatch b body now).updatedAt = now ∧
    (applyPatch b body now).isPublished = body.isPublished.getD true ∧
    (applyPatch b body now).isDraft = !(body.isPublished.getD true) := by
  have hfind : (pre ++ b :: post).find? (fun x => decide (x.slug = slug)) = some b :=
    find?_first (fun x hx => by simp [hpre x hx]) (by simp [hb])
  have hrepl : replaceFirst (fun x => decide (x.slug = slug))
      (applyPatch b body now) (pre ++ b :: post) =
      pre ++ applyPatch b body now :: post :=
    replaceFirst_first (fun x hx => by simp [hpre x hx]) (by simp [hb])
  refine ⟨?_, applyPatch_title _ _ _, applyPatch_content _ _ _,
    applyPatch_imageUrl _ _ _, applyPatch_tags _ _ _, applyPatch_slug _ _ _,
    applyPatch_author _ _ _, applyPatch_publishedAt _ _ _,
    applyPatch_createdAt _ _ _, applyPatch_updatedAt _ _ _,
    applyPatch_isPublished _ _ _, ?_⟩
  · subst huser
    rw [updateBlogController]
    rw [if_neg (by simp [truthy, hslug, hauth])]
    simp only [hfind, Option.getD_some]
    rw [if_neg (by simp), hrepl]
  · rw [applyPatch_isDraft, applyPatch_isPublished]

/-- Witness for C2 (amended): an imageUrl-only patch on a draft. -/
theorem c2_update_partial_witness :
    let b : Blog := ⟨"t", "c", none, "t", "u", [], false, true, none, 1, 1⟩
    let body : UpdateBody := ⟨"", "", "img", [], none⟩
    updateBlogController ([] ++ b :: []) (some "u") "t" body 2 =
      (200, [] ++ applyPatch b body 2 :: []) ∧
    (applyPatch b body 2).title = (if body.title ≠ "" then body.title else b.title) ∧
    (applyPatch b body 2).content =
      (if body.content ≠ "" then body.content else b.content) ∧
    (applyPatch b body 2).imageUrl =
      (if body.imageUrl ≠ "" then some body.imageUrl else b.imageUrl) ∧
    (applyPatch b body 2).tags =
      (if body.tags.length > 0 then body.tags.map (fun n => ⟨n, generateSlug n⟩)
       else b.tags) ∧
    (applyPatch b body 2).slug = b.slug ∧
    (applyPatch b body 2).author = b.author ∧
    (applyPatch b body 2).publishedAt = b.publishedAt ∧
    (applyPatch b body 2).createdAt = b.createdAt ∧
    (applyPatch b body 2).updatedAt = 2 ∧
    (applyPatch b body 2).isPublished = body.isPublished.getD true ∧
    (applyPatch b body 2).isDraft = !(body.isPublished.getD true) :=
  c2_update_partial [] [] ⟨"t", "c", none, "t", "u", [], false, true, none, 1, 1⟩
    (some "u") "t" ⟨"", "", "img", [], none⟩ 2
    (by intro x hx; cases hx) (by decide) rfl (by decide) (by decide)

/-- Counterexample to C2 as stated: an update whose patch contains only
`imageUrl` (no `isPublished`) flips a draft's `isPublished` from `false` to
`true`, so `isPublished`/`isDraft` are not "otherwise unchanged" when
`isPublished` is absent from the patch. -/
theorem c2_counterexample :
    ((updateBlogController
        [⟨"t", "c", none, "t", "u", [], false, true, none, 1, 1⟩]
        (some "u") "t" ⟨"", "", "img", [], none⟩ 2).2).map Blog.isPublished =
      [true] ∧
    (⟨"t", "c", none, "t", "u", [], false, true, none, 1, 1⟩ : Blog).isPublished =
      false := by
  constructor
  · decide
  · rfl

/-! ### C3: what the public list can return -/

/-- Every listed item comes from the store and satisfies the cursor
predicate (which is the only filter `getAllBlogs` applies). -/
theorem mem_of_mem_getAllBlogs {store : List Blog} {lim cur : Option Nat}
    {b : Blog} (hb : b ∈ (getAllBlogs store lim cur).blogs) :
    b ∈ store ∧ matchQuery cur b = true := by
  have h1 : b ∈ (sortByPubDesc (store.filter (matchQuery cur))).take
      (effLimit lim + 1) := by
    unfold getAllBlogs at hb
    simp only at hb
    split at hb
    · exact (List.dropLast_sublist _).subset hb
    · exact hb
  have h2 : b ∈ sortByPubDesc (store.filter (matchQuery cur)) :=
    (List.take_sublist _ _).subset h1
  have h3 : b ∈ store.filter (matchQuery cur) := by
    rw [sortByPubDesc] at h2
    exact (List.mem_insertionSort pubGE).mp h2
  exact ⟨(List.mem_filter.mp h3).1, (List.mem_filter.mp h3).2⟩

/-- Claim C3 (amended): the public list operation applies no
`isPublished` filter, so draft articles can appear in the feed (see
`c3_counterexample`).  What does hold: every returned item is a stored
article matching the cursor predicate, and when a cursor is present every
returned item has a non-null `publishedAt` strictly before the cursor (so
null-`publishedAt` drafts are excluded on cursor pages only). -/
theorem c3_list_membership (store : List Blog) (lim cur : Option Nat) :
    (∀ b ∈ (getAllBlogs store lim cur).blogs,
      b ∈ store ∧ matchQuery cur b = true) ∧
    (∀ c, cur = some c → ∀ b ∈ (getAllBlogs store lim cur).blogs,
      ∃ t, b.publishedAt = some t ∧ t < c) := by
  refine ⟨fun b hb => mem_of_mem_getAllBlogs hb, ?_⟩
  rintro c rfl b hb
  have h := (mem_of_mem_getAllBlogs hb).2
  unfold matchQuery at h
  match hp : b.publishedAt with
  | some t =>
    rw [hp] at h
    exact ⟨t, rfl, of_decide_eq_true h⟩
  | none => rw [hp] at h; cases h

/-- Witness for C3 (amended) on concrete one-article stores. -/
theorem c3_list_membership_witness :
    let draft : Blog := ⟨"t", "c", none, "t", "u", [], false, true, none, 1, 1⟩
    let pub : Blog := ⟨"p", "c", none, "p", "u", [], true, false, some 5, 5, 5⟩
    (draft ∈ [draft] ∧ matchQuery none draft = true) ∧
    (∃ t, pub.publishedAt = some t ∧ t < 10) :=
  ⟨(c3_list_membership [⟨"t", "c", none, "t", "u", [], false, true, none, 1, 1⟩]
      none none).1 _ (by decide),
   (c3_list_membership [⟨"p", "c", none, "p", "u", [], true, false, some 5, 5, 5⟩]
      none (some 10)).2 10 rfl _ (by decide)⟩

/-- Counterexample to C3 as stated: a store holding a single draft article
(`isPublished = false`, `publishedAt = null`); the public list with no
cursor returns that draft, so drafts do appear in the paginated public
feed (`getAllBlogs` builds its query from the cursor only and never
filters on `isPublished`, line 74). -/
theorem c3_counterexample :
    let draft : Blog := ⟨"t", "c", none, "t", "u", [], false, true, none, 1, 1⟩
    (getAllBlogs [draft] none none).blogs = [draft] ∧
    draft.isPublished = false := by
  constructor
  · decide
  · rfl

/-! ### Page-shape lemmas for getAllBlogs -/

/-- The matching records in the order the repository returns them. -/
def matchingSorted (store : List Blog) (cur : Option Nat) : List Blog :=
  sortByPubDesc (store.filter (matchQuery cur))

theorem getAllBlogs_hasNext (store : List Blog) (lim cur : Option Nat)
    (h : effLimit lim <
      ((matchingSorted store cur).take (effLimit lim + 1)).length) :
    getAllBlogs store lim cur =
      { status := 200
        blogs := ((matchingSorted store cur).take (effLimit lim + 1)).dropLast
        nextCursor :=
          (((matchingSorted store cur).take (effLimit lim + 1)).dropLast).getLast?.bind
            Blog.publishedAt } := by
  have hd : decide (effLimit lim <
      ((matchingSorted store cur).take (effLimit lim + 1)).length) = true :=
    decide_eq_true h
  simp only [getAllBlogs, matchingSorted] at hd ⊢
  rw [hd]
  simp

theorem getAllBlogs_noNext (store : List Blog) (lim cur : Option Nat)
    (h : ¬ effLimit lim <
      ((matchingSorted store cur).take (effLimit lim + 1)).length) :
    getAllBlogs store lim cur =
      { status := 200
        blogs := (matchingSorted store cur).take (effLimit lim + 1)
        nextCursor := none } := by
  have hd : decide (effLimit lim <
      ((matchingSorted store cur).take (effLimit lim + 1)).length) = false :=
    decide_eq_false h
  simp only [getAllBlogs, matchingSorted] at hd ⊢
  rw [hd]
  simp

/-! ### C5: single-call contract of the list operation -/

/-- Claim C5: one call to the list operation decodes an absent cursor to
the unrestricted predicate and a present cursor to `publishedAt < cursor`;
fetches `limit + 1` records in descending `publishedAt` order; truncates to
`limit` items with `nextCursor` the `publishedAt` of the last returned item
when more than `limit` matched, and otherwise returns everything with no
next cursor; and `limit` defaults to 10 when absent or non-numeric. -/
theorem c5_page_contract (store : List Blog) (lim cur : Option Nat) :
    (lim = none → getAllBlogs store none cur = getAllBlogs store (some 10) cur) ∧
    (cur = none → store.filter (matchQuery cur) = store) ∧
    (∀ c b, cur = some c →
      (matchQuery cur b = true ↔ ∃ t, b.publishedAt = some t ∧ t < c)) ∧
    (getAllBlogs store lim cur).blogs.length ≤ effLimit lim ∧
    (effLimit lim < (matchingSorted store cur).length →
      (getAllBlogs store lim cur).blogs =
        (matchingSorted store cur).take (effLimit lim) ∧
      ∀ bLast, (getAllBlogs store lim cur).blogs.getLast? = some bLast →
        (getAllBlogs store lim cur).nextCursor = bLast.publishedAt) ∧
    ((matchingSorted store cur).length ≤ effLimit lim →
      (getAllBlogs store lim cur).blogs = matchingSorted store cur ∧
      (getAllBlogs store lim cur).nextCursor = none) := by
  have hlen : ∀ n : Nat, ((matchingSorted store cur).take n).length =
      min n (matchingSorted store cur).length := fun n => List.length_take n _
  refine ⟨?_, ?_, ?_, ?_, ?_, ?_⟩
  · intro _
    rfl
  · rintro rfl
    exact List.filter_eq_self.mpr (fun b _ => rfl)
  · rintro c b rfl
    unfold matchQuery
    match hp : b.publishedAt with
    | some t =>
      constructor
      · intro h
        exact ⟨t, rfl, of_decide_eq_true h⟩
      · rintro ⟨t', ht', hlt⟩
        rcases Option.some.inj ht'
        exact decide_eq_true hlt
    | none =>
      constructor
      · intro h
        cases h
      · rintro ⟨t', ht', _⟩
        cases ht'
  · by_cases h : effLimit lim <
        ((matchingSorted store cur).take (effLimit lim + 1)).length
    · rw [getAllBlogs_hasNext store lim cur h]
      simp only [List.length_dropLast, hlen]
      omega
    · rw [getAllBlogs_noNext store lim cur h]
      simp only [hlen] at h ⊢
      omega
  · intro hmore
    have h : effLimit lim <
        ((matchingSorted store cur).take (effLimit lim + 1)).length := by
      rw [hlen]
      omega
    rw [getAllBlogs_hasNext store lim cur h]
    constructor
    · rw [List.dropLast_eq_take, hlen, List.take_take]
      have : min (min (effLimit lim + 1) (matchingSorted store cur).length - 1)
          (effLimit lim + 1) = effLimit lim := by omega
      rw [this]
    · intro bLast hLast
      simp only at hLast
      rw [hLast]
      rfl
  · intro hle
    have h : ¬ effLimit lim <
        ((matchingSorted store cur).take (effLimit lim + 1)).length := by
      rw [hlen]
      omega
    rw [getAllBlogs_noNext store lim cur h]
    exact ⟨List.take_of_length_le (by omega), rfl⟩

/-- Witness for C5 on a concrete two-article store with page size 1. -/
theorem c5_page_contract_witness :
    let b1 : Blog := ⟨"a", "c", none, "a", "u", [], true, false, some 1, 1, 1⟩
    let b2 : Blog := ⟨"b", "c", none, "b", "u", [], true, false, some 2, 2, 2⟩
    let store := [b1, b2]
    ((some 1 : Option Nat) = none →
      getAllBlogs store none none = getAllBlogs store (some 10) none) ∧
    ((none : Option Nat) = none → store.filter (matchQuery none) = store) ∧
    (∀ c b, (none : Option Nat) = some c →
      (matchQuery none b = true ↔ ∃ t, b.publishedAt = some t ∧ t < c)) ∧
    (getAllBlogs store (some 1) none).blogs.length ≤ effLimit (some 1) ∧
    (effLimit (some 1) < (matchingSorted store none).length →
      (getAllBlogs store (some 1) none).blogs =
        (matchingSorted store none).take (effLimit (some 1)) ∧
      ∀ bLast, (getAllBlogs store (some 1) none).blogs.getLast? = some bLast →
        (getAllBlogs store (some 1) none).nextCursor = bLast.publishedAt) ∧
    ((matchingSorted store none).length ≤ effLimit (some 1) →
      (getAllBlogs store (some 1) none).blogs = matchingSorted store none ∧
      (getAllBlogs store (some 1) none).nextCursor = none) :=
  c5_page_contract [⟨"a", "c", none, "a", "u", [], true, false, some 1, 1, 1⟩,
    ⟨"b", "c", none, "b", "u", [], true, false, some 2, 2, 2⟩] (some 1) none

/-! ### Injectivity of the numeric slug suffix -/

/-- Numeric value of a decimal digit character. -/
def digitVal (c : Char) : Nat := c.toNat - '0'.toNat

/-- Decimal value of a digit string. -/
def parseDigits (l : List Char) : Nat :=
  l.foldl (fun acc c => acc * 10 + digitVal c) 0

theorem toDigitsCore_append :
    ∀ (fuel n : Nat) (ds : List Char),
      Nat.toDigitsCore 10 fuel n ds = Nat.toDigitsCore 10 fuel n [] ++ ds := by
  intro fuel
  induction fuel with
  | zero => intro n ds; rfl
  | succ fuel ih =>
    intro n ds
    simp only [Nat.toDigitsCore]
    by_cases h : n / 10 = 0
    · rw [if_pos h, if_pos h]
      rfl
    · rw [if_neg h, if_neg h, ih (n / 10) (Nat.digitChar (n % 10) :: ds),
        ih (n / 10) [Nat.digitChar (n % 10)], List.append_assoc]
      rfl

theorem toDigitsCore_fuel (n : Nat) :
    ∀ (f₁ f₂ : Nat) (ds : List Char), n < f₁ → n < f₂ →
      Nat.toDigitsCore 10 f₁ n ds = Nat.toDigitsCore 10 f₂ n ds := by
  induction n using Nat.strong_induction_on with
  | _ n ih =>
    intro f₁ f₂ ds h₁ h₂
    match f₁, f₂ with
    | g₁ + 1, g₂ + 1 =>
      simp only [Nat.toDigitsCore]
      by_cases h : n / 10 = 0
      · rw [if_pos h, if_pos h]
      · rw [if_neg h, if_neg h]
        have hn : 0 < n := by
          rcases Nat.eq_zero_or_pos n with rfl | hn
          · simp at h
          · exact hn
        have hw : n / 10 < n := Nat.div_lt_self hn (by omega)
        exact ih (n / 10) hw g₁ g₂ _ (by omega) (by omega)

theorem digitVal_digitChar : ∀ d : Nat, d < 10 → digitVal (Nat.digitChar d) = d := by
  decide

theorem parseDigits_append (l : List Char) (c : Char) :
    parseDigits (l ++ [c]) = parseDigits l * 10 + digitVal c := by
  simp [parseDigits, List.foldl_append]

theorem parseDigits_toDigits (n : Nat) :
    parseDigits (Nat.toDigits 10 n) = n := by
  induction n using Nat.strong_induction_on with
  | _ n ih =>
    rw [Nat.toDigits]
    simp only [Nat.toDigitsCore]
    by_cases h : n / 10 = 0
    · rw [if_pos h]
      have hlt : n < 10 := by omega
      have hmod : n % 10 = n := Nat.mod_eq_of_lt hlt
      rw [hmod]
      show parseDigits ([] ++ [Nat.digitChar n]) = n
      rw [parseDigits_append]
      simp [parseDigits, digitVal_digitChar n hlt]
    · rw [if_neg h]
      have hn : 0 < n := by
        rcases Nat.eq_zero_or_pos n with rfl | hn
        · simp at h
        · exact hn
      have hw : n / 10 < n := Nat.div_lt_self hn (by omega)
      rw [toDigitsCore_append]
      have hfuel : Nat.toDigitsCore 10 n (n / 10) [] = Nat.toDigits 10 (n / 10) := by
        rw [Nat.toDigits]
        exact toDigitsCore_fuel (n / 10) n (n / 10 + 1) [] (by omega) (by omega)
      rw [hfuel, parseDigits_append, ih (n / 10) hw]
      have hdm := Nat.div_add_mod n 10
      have hmod : digitVal (Nat.digitChar (n % 10)) = n % 10 :=
        digitVal_digitChar _ (Nat.mod_lt _ (by omega))
      omega

theorem toDigits_concat (n : Nat) :
    ∃ l, Nat.toDigits 10 n = l ++ [Nat.digitChar (n % 10)] := by
  rw [Nat.toDigits]
  simp only [Nat.toDigitsCore]
  by_cases h : n / 10 = 0
  · exact ⟨[], by rw [if_pos h]; rfl⟩
  · exact ⟨Nat.toDigitsCore 10 n (n / 10) [], by rw [if_neg h, toDigitsCore_append]⟩

theorem repr_length_pos (n : Nat) : 0 < (Nat.repr n).length := by
  rcases toDigits_concat n with ⟨l, hl⟩
  rw [Nat.repr, hl]
  simp [List.asString, String.length]

theorem nat_repr_injective (m n : Nat) (h : Nat.repr m = Nat.repr n) : m = n := by
  have hdata : Nat.toDigits 10 m = Nat.toDigits 10 n := by
    have hd := congrArg String.data h
    simpa [Nat.repr, List.asString] using hd
  have hp := congrArg parseDigits hdata
  rwa [parseDigits_toDigits, parseDigits_toDigits] at hp

theorem slugCandidate_inj (base : String) :
    Function.Injective (slugCandidate base) := by
  intro k j h
  match k, j with
  | 0, 0 => rfl
  | 0, j + 1 =>
    exfalso
    have hlen := congrArg String.length h
    simp only [slugCandidate, String.length_append] at hlen
    have hd : ("-" : String).length = 1 := rfl
    have := repr_length_pos (j + 1)
    omega
  | k + 1, 0 =>
    exfalso
    have hlen := congrArg String.length h
    simp only [slugCandidate, String.length_append] at hlen
    have hd : ("-" : String).length = 1 := rfl
    have := repr_length_pos (k + 1)
    omega
  | k + 1, j + 1 =>
    have hdata := congrArg String.data h
    simp only [slugCandidate] at hdata
    rw [String.data_append, String.data_append, String.data_append,
      String.data_append] at hdata
    have h2 : (Nat.repr (k + 1)).data = (Nat.repr (j + 1)).data :=
      List.append_inj_right hdata rfl
    have h3 := nat_repr_injective (k + 1) (j + 1) (String.ext h2)
    exact h3

/-! ### C6: uniqueness resolution returns the first free candidate -/

theorem exists_free_candidate (base : String) (taken : List String) :
    ∃ k, k ≤ taken.length ∧ slugCandidate base k ∉ taken := by
  by_contra hcon
  push_neg at hcon
  have hsub : ((List.range (taken.length + 1)).map (slugCandidate base)) ⊆ taken := by
    intro s hs
    rcases List.mem_map.mp hs with ⟨k, hk, rfl⟩
    exact hcon k (by have := List.mem_range.mp hk; omega)
  have hnd : ((List.range (taken.length + 1)).map (slugCandidate base)).Nodup :=
    (List.nodup_range _).map (slugCandidate_inj base)
  have hle := (List.subperm_of_subset hnd hsub).length_le
  rw [List.length_map, List.length_range] at hle
  omega

theorem resolveLoop_spec (base : String) (taken : List String) :
    ∀ (fuel k : Nat), (∃ j, k ≤ j ∧ j ≤ k + fuel ∧ slugCandidate base j ∉ taken) →
      ∃ m, k ≤ m ∧ resolveLoop base taken fuel k = slugCandidate base m ∧
        slugCandidate base m ∉ taken ∧
        ∀ i, k ≤ i → i < m → slugCandidate base i ∈ taken := by
  intro fuel
  induction fuel with
  | zero =>
    rintro k ⟨j, hkj, hjk, hfree⟩
    have hj : j = k := by omega
    subst hj
    exact ⟨j, Nat.le_refl _, rfl, hfree,
      fun i h1 h2 => absurd (Nat.lt_of_le_of_lt h1 h2) (Nat.lt_irrefl j)⟩
  | succ fuel ih =>
    rintro k ⟨j, hkj, hjk, hfree⟩
    rw [resolveLoop]
    by_cases h : slugCandidate base k ∈ taken
    · rw [if_pos h]
      have hne : j ≠ k := fun e => hfree (e ▸ h)
      obtain ⟨m, hm1, hm2, hm3, hm4⟩ := ih (k + 1) ⟨j, by omega, by omega, hfree⟩
      refine ⟨m, by omega, hm2, hm3, fun i h1 h2 => ?_⟩
      rcases Nat.eq_or_lt_of_le h1 with he | h1'
      · exact he ▸ h
      · exact hm4 i h1' h2
    · rw [if_neg h]
      exact ⟨k, Nat.le_refl _, rfl, h,
        fun i h1 h2 => absurd (Nat.lt_of_le_of_lt h1 h2) (Nat.lt_irrefl k)⟩

/-- Claim C6: creation-time slug resolution returns the candidate itself
when it is free, and otherwise the first free candidate among
base-1, base-2, ... (the smallest suffix counter whose candidate is not
taken); the returned slug is never among the existing slugs. -/
theorem c6_slug_resolution (c : String) (taken : List String) :
    resolveSlug c taken ∉ taken ∧
    (c ∉ taken → resolveSlug c taken = c) ∧
    (c ∈ taken → ∃ k, 1 ≤ k ∧ resolveSlug c taken = slugCandidate c k ∧
      slugCandidate c k ∉ taken ∧
      ∀ j, 1 ≤ j → j < k → slugCandidate c j ∈ taken) := by
  obtain ⟨k0, hk0, hfree⟩ := exists_free_candidate c taken
  obtain ⟨m, hm0, hmeq, hmfree, hmmin⟩ :=
    resolveLoop_spec c taken (taken.length + 1) 0 ⟨k0, by omega, by omega, hfree⟩
  rw [resolveSlug]
  refine ⟨hmeq ▸ hmfree, ?_, ?_⟩
  · intro hc
    rcases Nat.eq_zero_or_pos m with hm | hm
    · rw [hmeq, hm]
      rfl
    · exact absurd (hmmin 0 (Nat.le_refl _) hm) hc
  · intro hc
    have hm : m ≠ 0 := by
      intro e
      rw [e] at hmfree
      exact hmfree hc
    exact ⟨m, by omega, hmeq, hmfree, fun j h1 h2 => hmmin j (by omega) h2⟩

/-- Witness for C6: a taken base resolves to the first suffixed candidate
and a free base resolves to itself. -/
theorem c6_slug_resolution_witness :
    (∃ k, 1 ≤ k ∧ resolveSlug "t" ["t"] = slugCandidate "t" k ∧
      slugCandidate "t" k ∉ ["t"] ∧
      ∀ j, 1 ≤ j → j < k → slugCandidate "t" j ∈ ["t"]) ∧
    resolveSlug "a" ["t"] = "a" :=
  ⟨(c6_slug_resolution "t" ["t"]).2.2 (by decide),
   (c6_slug_resolution "a" ["t"]).2.1 (by decide)⟩

/-! ### Strict descending order infrastructure for pagination -/

/-- Strictly-newer-than order on documents (strictly larger sort key). -/
def pubLT (a b : Blog) : Prop := pubKey b < pubKey a

/-- BSON encoding of a nullable timestamp as the sort key. -/
def pubEnc : Option Nat → Nat
  | none => 0
  | some t => t + 1

theorem pubEnc_injective : Function.Injective pubEnc := by
  intro a b h
  match a, b with
  | none, none => rfl
  | none, some t => simp [pubEnc] at h
  | some t, none => simp [pubEnc] at h
  | some t, some u => simp [pubEnc] at h; rw [h]

theorem map_pubKey_eq (l : List Blog) :
    l.map pubKey = (l.map Blog.publishedAt).map pubEnc := by
  rw [List.map_map]
  rfl

theorem keys_nodup_of_publishedAt_nodup {l : List Blog}
    (h : (l.map Blog.publishedAt).Nodup) : (l.map pubKey).Nodup := by
  rw [map_pubKey_eq]
  exact h.map pubEnc_injective

theorem strict_of_sorted_nodup {l : List Blog} (hs : l.Pairwise pubGE)
    (hn : (l.map pubKey).Nodup) : l.Pairwise pubLT := by
  have hne : l.Pairwise (fun a b => pubKey a ≠ pubKey b) :=
    List.pairwise_map.mp hn
  exact (hs.and hne).imp (fun {a b} h => by
    rcases h with ⟨h1, h2⟩
    simp only [pubGE] at h1
    simp only [pubLT]
    omega)

theorem strictDesc_perm_eq : ∀ {l₁ l₂ : List Blog}, List.Perm l₁ l₂ →
    l₁.Pairwise pubLT → l₂.Pairwise pubLT → l₁ = l₂ := by
  intro l₁
  induction l₁ with
  | nil =>
    intro l₂ hp _ _
    exact (hp.symm.eq_nil).symm
  | cons a t₁ ih =>
    intro l₂ hp h₁ h₂
    match l₂ with
    | [] => cases hp.eq_nil
    | b :: t₂ =>
      have hab : a = b := by
        by_contra hne
        have hbmem : b ∈ a :: t₁ := hp.mem_iff.mpr (List.mem_cons_self b t₂)
        have hamem : a ∈ b :: t₂ := hp.mem_iff.mp (List.mem_cons_self a t₁)
        have hb' : b ∈ t₁ := by
          rcases List.mem_cons.mp hbmem with h | h
          · exact absurd h.symm hne
          · exact h
        have ha' : a ∈ t₂ := by
          rcases List.mem_cons.mp hamem with h | h
          · exact absurd h hne
          · exact h
        have hr1 := (List.pairwise_cons.mp h₁).1 b hb'
        have hr2 := (List.pairwise_cons.mp h₂).1 a ha'
        simp only [pubLT] at hr1 hr2
        omega
      subst hab
      have ht : List.Perm t₁ t₂ := hp.cons_inv
      rw [ih ht (List.pairwise_cons.mp h₁).2 (List.pairwise_cons.mp h₂).2]

theorem matchingSorted_sorted (store : List Blog) (cur : Option Nat) :
    (matchingSorted store cur).Pairwise pubGE :=
  List.sorted_insertionSort pubGE _

theorem matchingSorted_perm (store : List Blog) (cur : Option Nat) :
    List.Perm (matchingSorted store cur) (store.filter (matchQuery cur)) :=
  List.perm_insertionSort pubGE _

theorem matchingSorted_keys_nodup {store : List Blog}
    (hnodup : (store.map Blog.publishedAt).Nodup) (cur : Option Nat) :
    ((matchingSorted store cur).map pubKey).Nodup := by
  have h1 : ((store.filter (matchQuery cur)).map pubKey).Nodup :=
    ((List.filter_sublist store).map pubKey).nodup
      (keys_nodup_of_publishedAt_nodup hnodup)
  exact (((matchingSorted_perm store cur).map pubKey).nodup_iff).mpr h1

theorem matchingSorted_strict {store : List Blog}
    (hnodup : (store.map Blog.publishedAt).Nodup) (cur : Option Nat) :
    (matchingSorted store cur).Pairwise pubLT :=
  strict_of_sorted_nodup (matchingSorted_sorted store cur)
    (matchingSorted_keys_nodup hnodup cur)

theorem mem_matchingSorted {store : List Blog} {cur : Option Nat} {b : Blog}
    (hb : b ∈ matchingSorted store cur) :
    b ∈ store ∧ matchQuery cur b = true := by
  have h := (matchingSorted_perm store cur).subset hb
  exact ⟨(List.mem_filter.mp h).1, (List.mem_filter.mp h).2⟩

theorem effLimit_some_pos {L : Nat} (hL : 0 < L) : effLimit (some L) = L := by
  match L, hL with
  | n + 1, _ => rfl

/-- In a strictly descending list split as u ++ [x] ++ v, filtering for
keys strictly below that of x keeps exactly the suffix v. -/
theorem filter_lt_cut (u v : List Blog) (x : Blog) (p : Blog → Bool)
    (hp : ∀ b ∈ (u ++ [x]) ++ v, p b = decide (pubKey b < pubKey x))
    (h : ((u ++ [x]) ++ v).Pairwise pubLT) :
    ((u ++ [x]) ++ v).filter p = v := by
  rw [List.filter_append, List.filter_append]
  have hsplit := List.pairwise_append.mp h
  have hu : u.filter p = [] := by
    rw [List.filter_eq_nil_iff]
    intro a ha
    have hax : pubLT a x := (List.pairwise_append.mp hsplit.1).2.2 a ha x
      (List.mem_singleton.mpr rfl)
    rw [hp a (List.mem_append_left _ (List.mem_append_left _ ha))]
    simp only [pubLT] at hax
    simp
    omega
  have hx : [x].filter p = [] := by
    rw [List.filter_eq_nil_iff]
    intro a ha
    rcases List.mem_singleton.mp ha with rfl
    rw [hp a (List.mem_append_left _ (List.mem_append_right _ ha))]
    simp
  have hv : v.filter p = v := by
    rw [List.filter_eq_self]
    intro a ha
    have hxa : pubLT x a := hsplit.2.2 x
      (List.mem_append_right _ (List.mem_singleton.mpr rfl)) a ha
    rw [hp a (List.mem_append_right _ ha)]
    simp only [pubLT] at hxa
    simp
    omega
  rw [hu, hx, hv]
  rfl

/-- Cursor chaining: call the list endpoint, follow `nextCursor` until it
is absent, collecting the responses (fuel bounds the number of calls). -/
def collectPages (store : List Blog) (L : Nat) : Option Nat → Nat → List FeedPage
  | _, 0 => []
  | c, fuel + 1 =>
    let p := getAllBlogs store (some L) c
    match p.nextCursor with
    | none => [p]
    | some c2 => p :: collectPages store L (some c2) fuel

/-- One chained call on a long-enough feed: the page is the next `L`
documents, the cursor is the `publishedAt` of its last item, and the
documents matching the new cursor are exactly the remaining suffix. -/
theorem page_step (store : List Blog) (L : Nat) (hL : 0 < L)
    (hsome : ∀ b ∈ store, b.publishedAt.isSome = true)
    (hnodup : (store.map Blog.publishedAt).Nodup)
    (cur : Option Nat) (hlong : L < (matchingSorted store cur).length) :
    ∃ x t, ((matchingSorted store cur).take L).getLast? = some x ∧
      x.publishedAt = some t ∧
      getAllBlogs store (some L) cur =
        ⟨200, (matchingSorted store cur).take L, some t⟩ ∧
      matchingSorted store (some t) = (matchingSorted store cur).drop L := by
  set R := matchingSorted store cur with hRdef
  have hlenTake : (R.take L).length = L := by
    rw [List.length_take]
    omega
  have hne : R.take L ≠ [] := by
    intro e
    rw [e] at hlenTake
    simp at hlenTake
    omega
  obtain ⟨x, hx⟩ :=
    Option.isSome_iff_exists.mp (List.getLast?_isSome.mpr hne)
  have hxmem : x ∈ R.take L := List.mem_of_getLast?_eq_some hx
  have hxmemR : x ∈ R := (List.take_sublist L R).subset hxmem
  have hxstore : x ∈ store := (mem_matchingSorted hxmemR).1
  have hxq : matchQuery cur x = true := (mem_matchingSorted hxmemR).2
  obtain ⟨t, ht⟩ := Option.isSome_iff_exists.mp (hsome x hxstore)
  have hEff : effLimit (some L) = L := effLimit_some_pos hL
  have hcond2 : effLimit (some L) <
      ((matchingSorted store cur).take (effLimit (some L) + 1)).length := by
    rw [hEff, List.length_take, ← hRdef]
    omega
  have hpage := getAllBlogs_hasNext store (some L) cur hcond2
  rw [hEff] at hpage
  have hblogs : (R.take (L + 1)).dropLast = R.take L := by
    rw [List.dropLast_eq_take, List.length_take]
    have h1 : min (L + 1) R.length - 1 = L := by omega
    rw [h1, List.take_take]
    have h2 : min L (L + 1) = L := by omega
    rw [h2]
  rw [hblogs] at hpage
  have hnc : ((R.take L).getLast?).bind Blog.publishedAt = some t := by
    rw [hx]
    exact ht
  rw [hnc] at hpage
  have hstrict : R.Pairwise pubLT := matchingSorted_strict hnodup cur
  obtain ⟨u, hu⟩ := List.getLast?_eq_some_iff.mp hx
  have hsplitR : R = (u ++ [x]) ++ R.drop L := by
    conv_lhs => rw [← List.take_append_drop L R]
    rw [hu]
  have himp : ∀ b, matchQuery (some t) b = true → matchQuery cur b = true := by
    intro b hb
    match cur with
    | none => rfl
    | some c0 =>
      have hxc : t < c0 := by
        unfold matchQuery at hxq
        rw [ht] at hxq
        exact of_decide_eq_true hxq
      unfold matchQuery at hb ⊢
      match hp : b.publishedAt with
      | some tb =>
        rw [hp] at hb
        exact decide_eq_true (Nat.lt_trans (of_decide_eq_true hb) hxc)
      | none =>
        rw [hp] at hb
        cases hb
  have hff : store.filter (matchQuery (some t)) =
      (store.filter (matchQuery cur)).filter (matchQuery (some t)) := by
    rw [List.filter_filter]
    apply List.filter_congr
    intro b _
    cases hq : matchQuery (some t) b with
    | true => rw [himp b hq]; rfl
    | false => rfl
  have hpair : ((u ++ [x]) ++ R.drop L).Pairwise pubLT := by
    rw [← hsplitR]
    exact hstrict
  have hp : ∀ b ∈ (u ++ [x]) ++ R.drop L,
      matchQuery (some t) b = decide (pubKey b < pubKey x) := by
    intro b hb
    have hbR : b ∈ R := by
      rw [hsplitR]
      exact hb
    have hbstore : b ∈ store := (mem_matchingSorted hbR).1
    obtain ⟨tb, htb⟩ := Option.isSome_iff_exists.mp (hsome b hbstore)
    unfold matchQuery
    rw [htb]
    have hk1 : pubKey b = tb + 1 := by simp [pubKey, htb]
    have hk2 : pubKey x = t + 1 := by simp [pubKey, ht]
    rw [hk1, hk2]
    exact decide_eq_decide.mpr (by omega)
  have hcut := filter_lt_cut u (R.drop L) x (matchQuery (some t)) hp hpair
  have p3 : R.filter (matchQuery (some t)) = R.drop L := by
    conv_lhs => rw [hsplitR]
    exact hcut
  have p1 := matchingSorted_perm store (some t)
  rw [hff] at p1
  have p2 : List.Perm ((store.filter (matchQuery cur)).filter (matchQuery (some t)))
      (R.filter (matchQuery (some t))) :=
    ((matchingSorted_perm store cur).symm).filter _
  rw [p3] at p2
  have hpermA : List.Perm (matchingSorted store (some t)) (R.drop L) :=
    p1.trans p2
  have hstrictA : (matchingSorted store (some t)).Pairwise pubLT :=
    matchingSorted_strict hnodup (some t)
  have hstrictD : (R.drop L).Pairwise pubLT :=
    List.Pairwise.sublist (List.drop_sublist L R) hstrict
  exact ⟨x, t, hx, ht, hpage, strictDesc_perm_eq hpermA hstrictA hstrictD⟩

theorem collectPages_succ (store : List Blog) (L : Nat) (c : Option Nat)
    (fuel : Nat) :
    collectPages store L c (fuel + 1) =
      match (getAllBlogs store (some L) c).nextCursor with
      | none => [getAllBlogs store (some L) c]
      | some c2 => getAllBlogs store (some L) c :: collectPages store L (some c2) fuel :=
  rfl

theorem getLast?_cons_of_ne_nil {p : FeedPage} {l : List FeedPage}
    (h : l ≠ []) : (p :: l).getLast? = l.getLast? := by
  match l with
  | [] => exact absurd rfl h
  | q :: l' => exact List.getLast?_cons_cons

/-- Chaining invariant: with enough fuel, following cursors from any
starting cursor emits exactly the documents matching that cursor in feed
order, the chain ends on a page without a next cursor, and when the page
size divides a non-empty remainder the final page is exactly full. -/
theorem collect_correct (store : List Blog) (L : Nat) (hL : 0 < L)
    (hsome : ∀ b ∈ store, b.publishedAt.isSome = true)
    (hnodup : (store.map Blog.publishedAt).Nodup) :
    ∀ (fuel : Nat) (cur : Option Nat),
      (matchingSorted store cur).length ≤ fuel →
      (((collectPages store L cur (fuel + 1)).map FeedPage.blogs).flatten =
        matchingSorted store cur ∧
      collectPages store L cur (fuel + 1) ≠ [] ∧
      (∀ last, (collectPages store L cur (fuel + 1)).getLast? = some last →
        last.nextCursor = none ∧
        (0 < (matchingSorted store cur).length →
          L ∣ (matchingSorted store cur).length → last.blogs.length = L))) := by
  intro fuel
  induction fuel with
  | zero =>
    intro cur hlen
    have hR : matchingSorted store cur = [] :=
      List.length_eq_zero.mp (by omega)
    have hnn : ¬ effLimit (some L) <
        ((matchingSorted store cur).take (effLimit (some L) + 1)).length := by
      rw [hR]
      simp
    have hcall := getAllBlogs_noNext store (some L) cur hnn
    simp only [hR, List.take_nil] at hcall
    have hnc : (getAllBlogs store (some L) cur).nextCursor = none := by
      rw [hcall]
    rw [collectPages_succ, hnc, hcall]
    refine ⟨by simp [hR], by simp, ?_⟩
    intro last hlast
    simp at hlast
    rw [← hlast]
    refine ⟨rfl, fun hpos _ => ?_⟩
    rw [hR] at hpos
    simp at hpos
  | succ fuel ih =>
    intro cur hlen
    by_cases hcase : (matchingSorted store cur).length ≤ L
    · have hnn : ¬ effLimit (some L) <
          ((matchingSorted store cur).take (effLimit (some L) + 1)).length := by
        rw [effLimit_some_pos hL, List.length_take]
        omega
      have hcall := getAllBlogs_noNext store (some L) cur hnn
      have htake : (matchingSorted store cur).take (effLimit (some L) + 1) =
          matchingSorted store cur :=
        List.take_of_length_le (by rw [effLimit_some_pos hL]; omega)
      rw [htake] at hcall
      have hnc : (getAllBlogs store (some L) cur).nextCursor = none := by
        rw [hcall]
      rw [collectPages_succ, hnc, hcall]
      refine ⟨by simp, by simp, ?_⟩
      intro last hlast
      simp at hlast
      rw [← hlast]
      refine ⟨rfl, fun hpos hdvd => ?_⟩
      have hge := Nat.le_of_dvd hpos hdvd
      show (matchingSorted store cur).length = L
      omega
    · obtain ⟨x, t, hx, ht, hcall, hdrop⟩ :=
        page_step store L hL hsome hnodup cur (by omega)
      have hnc : (getAllBlogs store (some L) cur).nextCursor = some t := by
        rw [hcall]
      rw [collectPages_succ, hnc]
      have hlen' : (matchingSorted store (some t)).length ≤ fuel := by
        rw [hdrop, List.length_drop]
        omega
      obtain ⟨ihj, ihne, ihlast⟩ := ih (some t) hlen'
      refine ⟨?_, by simp, ?_⟩
      · simp only [List.map_cons, List.flatten_cons, ihj, hdrop, hcall]
        exact List.take_append_drop L _
      · intro last hlast
        rw [getLast?_cons_of_ne_nil ihne] at hlast
        obtain ⟨hnone, hbound⟩ := ihlast last hlast
        refine ⟨hnone, fun hpos hdvd => ?_⟩
        apply hbound
        · rw [hdrop, List.length_drop]
          omega
        · rw [hdrop, List.length_drop]
          exact Nat.dvd_sub' hdvd (Nat.dvd_refl L)

/-- Claim C4: over a feed of M published articles with pairwise-distinct
(non-null) publish timestamps and page size 0 < L < M, chaining the list
operation by cursor until `nextCursor` is absent yields exactly the M
articles (a permutation of the store, of length M), strictly decreasing in
`publishedAt` (`pubLT` compares the keys of the non-null timestamps), with
no duplicate and no omission; the chain ends on a page with no next
cursor, and when L divides M that final page has exactly L items. -/
theorem c4_pagination (store : List Blog) (L : Nat)
    (hpub : ∀ b ∈ store, b.isPublished = true)
    (hsome : ∀ b ∈ store, b.publishedAt.isSome = true)
    (hnodup : (store.map Blog.publishedAt).Nodup)
    (hL : 0 < L) (hLM : L < store.length) :
    List.Perm (((collectPages store L none (store.length + 1)).map
      FeedPage.blogs).flatten) store ∧
    (((collectPages store L none (store.length + 1)).map
      FeedPage.blogs).flatten).length = store.length ∧
    (((collectPages store L none (store.length + 1)).map
      FeedPage.blogs).flatten).Pairwise pubLT ∧
    (∀ b ∈ ((collectPages store L none (store.length + 1)).map
      FeedPage.blogs).flatten,
      b.publishedAt.isSome = true ∧ b.isPublished = true) ∧
    (∀ last, (collectPages store L none (store.length + 1)).getLast? = some last →
      last.nextCursor = none ∧ (L ∣ store.length → last.blogs.length = L)) := by
  have hfilter : store.filter (matchQuery none) = store :=
    List.filter_eq_self.mpr (fun b _ => rfl)
  have hmlen : (matchingSorted store none).length = store.length := by
    rw [matchingSorted, hfilter, sortByPubDesc, List.length_insertionSort]
  obtain ⟨hjoin, hne, hlast⟩ :=
    collect_correct store L hL hsome hnodup store.length none
      (by rw [hmlen])
  have hperm : List.Perm (matchingSorted store none) store := by
    have h := matchingSorted_perm store none
    rwa [hfilter] at h
  refine ⟨?_, ?_, ?_, ?_, ?_⟩
  · rw [hjoin]
    exact hperm
  · rw [hjoin, hmlen]
  · rw [hjoin]
    exact matchingSorted_strict hnodup none
  · intro b hb
    rw [hjoin] at hb
    exact ⟨hsome b (hperm.subset hb), hpub b (hperm.subset hb)⟩
  · intro last hl
    obtain ⟨h1, h2⟩ := hlast last hl
    exact ⟨h1, fun hdvd =>
      h2 (by rw [hmlen]; omega) (by rw [hmlen]; exact hdvd)⟩

/-- Witness for C4: two published articles, page size 1. -/
theorem c4_pagination_witness :
    let b1 : Blog := ⟨"a", "c", none, "a", "u", [], true, false, some 1, 1, 1⟩
    let b2 : Blog := ⟨"b", "c", none, "b", "u", [], true, false, some 2, 2, 2⟩
    let store := [b1, b2]
    List.Perm (((collectPages store 1 none (store.length + 1)).map
      FeedPage.blogs).flatten) store ∧
    (((collectPages store 1 none (store.length + 1)).map
      FeedPage.blogs).flatten).length = store.length ∧
    (((collectPages store 1 none (store.length + 1)).map
      FeedPage.blogs).flatten).Pairwise pubLT ∧
    (∀ b ∈ ((collectPages store 1 none (store.length + 1)).map
      FeedPage.blogs).flatten,
      b.publishedAt.isSome = true ∧ b.isPublished = true) ∧
    (∀ last, (collectPages store 1 none (store.length + 1)).getLast? = some last →
      last.nextCursor = none ∧ (1 ∣ store.length → last.blogs.length = 1)) :=
  c4_pagination [⟨"a", "c", none, "a", "u", [], true, false, some 1, 1, 1⟩,
    ⟨"b", "c", none, "b", "u", [], true, false, some 2, 2, 2⟩] 1
    (by decide) (by decide) (by decide) (by decide) (by decide)
